import Mathlib

/-!
Verification of the context/token budget manager and prompt-assembly layer of
the telegram-gpt repository.

The Python sources are shallowly embedded:

* a Python dict-shaped message, as consumed by `TokenManager` (token counting
  only ever looks at `str(value)` of each attribute), is a `Msg`: an
  association list of attribute name to the `str()` image of its value;
* possible exceptions are `Option`/`Except` values (`none`/`error` = the call
  raised);
* `tiktoken` encoding is abstracted as a function `String → Option Nat`
  giving the length of the encoded subword sequence for a string (`none`
  models `encode` raising, e.g. on special tokens);
* the wall clock / `zoneinfo` environment of `PromptBuilder` is abstracted as
  a function from a timezone name to `Option String`: the ISO timestamp
  `datetime.now(ZoneInfo(tz)).isoformat(timespec="seconds")` would produce,
  or `none` when `ZoneInfo(tz)` raises.
-/

namespace TelegramGpt

/-- A message as seen by the token counter: the `(key, str(value))` items of a
Python dict, in iteration order.  Python dicts cannot repeat keys; where that
matters a `Nodup` hypothesis on the keys appears. -/
abbrev Msg := List (String × String)

/-! ## token_manager.py -/

/-- `TokenManager` state: `self.model`, `self.max_tokens` and `self.encoding`
(`none` models `self.encoding = None`, i.e. tiktoken failed to initialize;
`some enclen` models a live encoding, where `enclen s` is
`len(self.encoding.encode(s))`, or `none` when `encode` raises). -/
structure TokenManager where
  model : String
  max_tokens : Int
  encoding : Option (String → Option Nat)

/-- Total characters over all values of all messages:
`sum(len(str(value)) for message in messages for value in message.values())`. -/
def totalChars (messages : List Msg) : Nat :=
  (messages.map (fun m => (m.map (fun kv => kv.2.length)).sum)).sum

/-- `TokenManager._estimate_tokens`: `(total_chars // 4) + (len(messages) * 4)`. -/
def TokenManager.estimate_tokens (messages : List Msg) : Nat :=
  totalChars messages / 4 + messages.length * 4

/-- The inner loop of `TokenManager.count_tokens` over `message.items()`:
`num_tokens += len(self.encoding.encode(str(value)))` and `num_tokens += -1`
when the key is `"name"`.  `none` models `encode` raising. -/
def itemsTokens (enclen : String → Option Nat) : List (String × String) → Option Int
  | [] => some 0
  | (k, v) :: rest =>
    match enclen v, itemsTokens enclen rest with
    | some n, some t => some ((n : Int) + (if k = "name" then -1 else 0) + t)
    | _, _ => none

/-- The outer loop of `TokenManager.count_tokens`: `num_tokens += 4` per
message plus its items' tokens. -/
def exactTokens (enclen : String → Option Nat) : List Msg → Option Int
  | [] => some 0
  | m :: rest =>
    match itemsTokens enclen m, exactTokens enclen rest with
    | some a, some b => some (4 + a + b)
    | _, _ => none

/-- `TokenManager.count_tokens`: falls back to `_estimate_tokens` when no
encoding is configured or when the exact computation raises; otherwise the
exact count plus the 2-token reply priming. -/
def TokenManager.count_tokens (tm : TokenManager) (messages : List Msg) : Int :=
  match tm.encoding with
  | none => (TokenManager.estimate_tokens messages : Int)
  | some enclen =>
    match exactTokens enclen messages with
    | some n => n + 2
    | none => (TokenManager.estimate_tokens messages : Int)

/-- `TokenManager.count_message_tokens`: tokens of the singleton
`{"role": role, "content": content}` minus the reply priming. -/
def TokenManager.count_message_tokens (tm : TokenManager) (role content : String) : Int :=
  tm.count_tokens [[("role", role), ("content", content)]] - 2

/-- The `for message in reversed(messages)` loop of
`TokenManager.trim_to_fit`, processing the reversed message list.  `count m`
is `self.count_tokens([message])` (wrapped in `Option` because the loop body
runs inside `try`); `none` aborts the walk like a raised exception. -/
def trimToFitGo (count : α → Option Int) (avail : Int) :
    List α → Int → List α → Option (List α)
  | [], _, kept => some kept
  | m :: rest, current, kept =>
    match count m with
    | none => none
    | some t =>
      if current + t ≤ avail then trimToFitGo count avail rest (current + t) (m :: kept)
      else if kept.isEmpty then some [m]
      else some kept

/-- `TokenManager.trim_to_fit`: empty in, empty out; a single message is
returned unconditionally; otherwise the greedy newest-to-oldest walk, with the
`except` fallback `messages[-20:]` when the walk raises. -/
def TokenManager.trim_to_fit (tm : TokenManager) (messages : List Msg)
    (reserve_tokens : Int) : List Msg :=
  if messages.isEmpty then []
  else if messages.length = 1 then messages
  else
    match trimToFitGo (fun m => some (tm.count_tokens [m]))
        (tm.max_tokens - reserve_tokens) messages.reverse 0 [] with
    | some kept => kept
    | none => messages.drop (messages.length - 20)

/-! ## utils/context_trimmer.py -/

/-- The `for message in reversed(messages)` loop of `trim_messages_to_fit`
(textually the same loop as `TokenManager.trim_to_fit`, but calling
`provider.count_tokens`, which may raise: `none`). -/
def trimMessagesGo (count : α → Option Int) (avail : Int) :
    List α → Int → List α → Option (List α)
  | [], _, kept => some kept
  | m :: rest, current, kept =>
    match count m with
    | none => none
    | some t =>
      if current + t ≤ avail then trimMessagesGo count avail rest (current + t) (m :: kept)
      else if kept.isEmpty then some [m]
      else some kept

/-- `trim_messages_to_fit(messages, max_tokens, provider, reserve_tokens)`;
`count` is `provider.count_tokens` on a message list, `none` = it raised. -/
def trim_messages_to_fit (messages : List α) (max_tokens : Int)
    (count : List α → Option Int) (reserve_tokens : Int) : List α :=
  if messages.isEmpty then []
  else if messages.length = 1 then messages
  else
    match trimMessagesGo (fun m => count [m]) (max_tokens - reserve_tokens)
        messages.reverse 0 [] with
    | some kept => kept
    | none => messages.drop (messages.length - 20)

/-- The last `n` elements of a list (`l[-n:]` in Python). -/
def lastN (n : Nat) (l : List α) : List α :=
  l.drop (l.length - n)

/-! ## prompt_builder.py -/

/-- Python truthiness of an optional string: `None` and `""` are falsy. -/
def optStrTruthy : Option String → Bool
  | none => false
  | some s => !s.isEmpty

/-- `PromptBuilder` state.  The two personality resolvers are optional
callables; a call either returns a value (`Except.ok`) or raises
(`Except.error ()`).  `get_active_personality` takes no argument, so the
behaviour of one call is just its outcome. -/
structure PromptBuilder where
  default_private_prompt : String
  default_group_prompt : String
  get_active_personality : Option (Except Unit String)
  get_personality_prompt : Option (String → Except Unit (Option String))
  timezone_name : String
  fallback_timezone_name : String

/-- `PromptBuilder._current_time_iso`, over an abstract clock/zoneinfo
environment `env`: try the configured timezone, on failure use the fallback
timezone; if that raises too, the exception propagates (`none`). -/
def PromptBuilder.current_time_iso (pb : PromptBuilder)
    (env : String → Option String) : Option String :=
  match env pb.timezone_name with
  | some t => some t
  | none => env pb.fallback_timezone_name

/-- `PromptBuilder._resolve_group_personality_prompt`: `none` means the
Python function returned `None` (default group prompt is to be used).  All
raised exceptions are caught and also yield `none`.  An empty personality
text is falsy (`if custom_prompt:`), hence also `none`. -/
def PromptBuilder.resolve_group_personality (pb : PromptBuilder) : Option String :=
  match pb.get_active_personality, pb.get_personality_prompt with
  | some activeCall, some lookup =>
    match activeCall with
    | Except.error _ => none
    | Except.ok active_personality =>
      if active_personality = "normal" then none
      else
        match lookup active_personality with
        | Except.error _ => none
        | Except.ok custom_prompt =>
          if optStrTruthy custom_prompt then custom_prompt else none
  | _, _ => none

/-- The `prompt_body` selection inside `PromptBuilder.build_system_prompt`:
a truthy explicit override wins; else for group chats the resolved
personality or the default group prompt; else the default private prompt. -/
def PromptBuilder.prompt_body (pb : PromptBuilder) (is_group : Bool)
    (custom_system_prompt : Option String) : String :=
  if optStrTruthy custom_system_prompt then custom_system_prompt.getD ""
  else if is_group then (pb.resolve_group_personality).getD pb.default_group_prompt
  else pb.default_private_prompt

/-- `PromptBuilder.build_system_prompt`:
`f'Current date/time: {now_iso}\n\n"{prompt_body}"'`.  `none` only when the
time lookup raises for both timezones. -/
def PromptBuilder.build_system_prompt (pb : PromptBuilder)
    (env : String → Option String) (is_group : Bool)
    (custom_system_prompt : Option String) : Option String :=
  (pb.current_time_iso env).map (fun now_iso =>
    "Current date/time: " ++ now_iso ++ "\n\n\"" ++
      pb.prompt_body is_group custom_system_prompt ++ "\"")

/-! ### message formatting (`PromptBuilder.format_messages`) -/

/-- The value found under `"image_url"` in a content part: either a dict
(possibly without a `"url"` entry) or a non-dict value, kept as its `str()`
image. -/
inductive ImageVal where
  | dict (url : Option String)
  | prim (s : String)
deriving DecidableEq

/-- A content part: a Python dict with optional `"type"`, `"text"` and
`"image_url"` entries (the only keys `format_messages` reads). -/
structure Part where
  type : Option String
  text : Option String
  image_url : Option ImageVal
deriving DecidableEq

/-- Message content: a plain string, a list of parts, or any other Python
value (unsupported, logged and dropped by `format_messages`). -/
inductive Content where
  | str (s : String)
  | parts (ps : List Part)
  | other (descr : String)
deriving DecidableEq

/-- A stored message as consumed by `format_messages`: a `"role"`, a
`"content"` and an optional `"sender_name"`. -/
structure FMsg where
  role : String
  content : Content
  sender_name : Option String
deriving DecidableEq

/-- Python's `text.startswith("[")`: the first character is `'['`.  (For a
single-character argument `startswith` is exactly a first-character test.) -/
def startsWithBracket (s : String) : Bool :=
  match s.data with
  | [] => false
  | c :: _ => c == '['

/-- `PromptBuilder._apply_group_sender_prefix`: only user-role texts are
touched, and only when not already bracket-prefixed. -/
def applyGroupSender (role text sender_name : String) : String :=
  if role ≠ "user" then text
  else if startsWithBracket text then text
  else "[" ++ sender_name ++ "]: " ++ text

/-- One iteration of the part loop in `PromptBuilder.format_messages`:
text-ish parts are normalized to `input_text` (group-prefixed for user
messages), image-ish parts to `input_image` with a flattened url; anything
else is dropped (`none`). -/
def formatPart (is_group : Bool) (role sender_name : String) (part : Part) :
    Option Part :=
  if part.type = some "text" ∨ part.type = some "input_text" then
    let text := part.text.getD ""
    let text := if is_group then applyGroupSender role text sender_name else text
    some { type := some "input_text", text := some text, image_url := none }
  else if part.type = some "image_url" ∨ part.type = some "input_image" then
    if part.type = some "image_url" then
      let image_url_obj := part.image_url.getD (ImageVal.dict none)
      let url := match image_url_obj with
        | ImageVal.dict u => u.getD ""
        | ImageVal.prim s => s
      some { type := some "input_image", text := none,
             image_url := some (ImageVal.prim url) }
    else
      some { type := some "input_image", text := none,
             image_url := some (part.image_url.getD (ImageVal.prim "")) }
  else none

/-- One iteration of the message loop in `PromptBuilder.format_messages`:
`none` when the message is skipped (unsupported content type). -/
def formatMessage (is_group : Bool) (msg : FMsg) : Option FMsg :=
  let sender_name := msg.sender_name.getD "Unknown"
  match msg.content with
  | Content.str s =>
    let c := if is_group then applyGroupSender msg.role s sender_name else s
    some { role := msg.role, content := Content.str c, sender_name := none }
  | Content.parts ps =>
    some { role := msg.role,
           content := Content.parts (ps.filterMap (formatPart is_group msg.role sender_name)),
           sender_name := none }
  | Content.other _ => none

/-- `PromptBuilder.format_messages`. -/
def format_messages (messages : List FMsg) (is_group : Bool) : List FMsg :=
  messages.filterMap (formatMessage is_group)

/-! ### reply context helpers -/

/-- The whitespace characters stripped by Python's `str.strip()` (ASCII part). -/
def pyIsSpace (c : Char) : Bool :=
  c == ' ' || c == '\t' || c == '\n' || c == '\x0b' || c == '\x0c' || c == '\r'

/-- Python `str.strip()`: drop whitespace from both ends. -/
def pyStrip (s : String) : String :=
  String.mk (((s.data.dropWhile pyIsSpace).reverse.dropWhile pyIsSpace).reverse)

/-- `PromptBuilder.format_reply_context`. -/
def format_reply_context (sender_name content : String) : String :=
  "[Context - Replying to " ++ sender_name ++ "]: \"" ++ content ++ "\""

/-- `PromptBuilder.combine_with_reply_context`:
`f"{reply_context}\n\n{prompt}".strip()` unless the context is falsy. -/
def combine_with_reply_context (prompt reply_context : String) : String :=
  if reply_context = "" then prompt
  else pyStrip (reply_context ++ "\n\n" ++ prompt)

/-! ## Helper lemmas: the two trim loops -/

theorem trimGo_congr (c₁ c₂ : α → Option Int) (h : ∀ m, c₁ m = c₂ m) (avail : Int)
    (l : List α) : ∀ (cur : Int) (kept : List α),
    trimMessagesGo c₁ avail l cur kept = trimToFitGo c₂ avail l cur kept := by
  induction l with
  | nil => intro cur kept; rfl
  | cons m rest ih =>
    intro cur kept
    simp only [trimMessagesGo, trimToFitGo, h m]
    cases c₂ m with
    | none => rfl
    | some t =>
      by_cases hle : cur + t ≤ avail
      · simp [hle, ih]
      · simp [hle]

theorem trimToFitGo_shape (c : α → Option Int) (avail : Int) (l : List α) :
    ∀ (cur : Int) (kept r : List α),
    trimToFitGo c avail l cur kept = some r → ∃ n, r = (l.take n).reverse ++ kept := by
  induction l with
  | nil =>
    intro cur kept r h
    simp only [trimToFitGo, Option.some.injEq] at h
    exact ⟨0, by simp [h]⟩
  | cons m rest ih =>
    intro cur kept r h
    simp only [trimToFitGo] at h
    cases hc : c m with
    | none => simp only [hc] at h; exact Option.noConfusion h
    | some t =>
      simp only [hc] at h
      by_cases hle : cur + t ≤ avail
      · rw [if_pos hle] at h
        obtain ⟨n, hn⟩ := ih (cur + t) (m :: kept) r h
        exact ⟨n + 1, by simp [hn, List.take_succ_cons]⟩
      · rw [if_neg hle] at h
        by_cases hk : kept.isEmpty
        · rw [if_pos hk] at h
          refine ⟨1, ?_⟩
          simp only [Option.some.injEq] at h
          simp [← h, List.isEmpty_iff.mp hk]
        · rw [if_neg hk] at h
          simp only [Option.some.injEq] at h
          exact ⟨0, by simp [← h]⟩

theorem trimToFitGo_ne_nil (c : α → Option Int) (avail : Int) (l : List α) :
    ∀ (cur : Int) (kept r : List α), kept ≠ [] ∨ l ≠ [] →
    trimToFitGo c avail l cur kept = some r → r ≠ [] := by
  induction l with
  | nil =>
    intro cur kept r hor h
    simp only [trimToFitGo, Option.some.injEq] at h
    cases hor with
    | inl hk => exact h ▸ hk
    | inr hl => exact absurd rfl hl
  | cons m rest ih =>
    intro cur kept r hor h
    simp only [trimToFitGo] at h
    cases hc : c m with
    | none => simp only [hc] at h; exact Option.noConfusion h
    | some t =>
      simp only [hc] at h
      by_cases hle : cur + t ≤ avail
      · rw [if_pos hle] at h
        exact ih (cur + t) (m :: kept) r (Or.inl (by simp)) h
      · rw [if_neg hle] at h
        by_cases hk : kept.isEmpty
        · rw [if_pos hk] at h
          simp only [Option.some.injEq] at h
          simp [← h]
        · rw [if_neg hk] at h
          simp only [Option.some.injEq] at h
          exact h ▸ (by simpa using hk)

theorem trimToFitGo_greedy (c : α → Int) (avail : Int) :
    ∀ (k : Nat) (l : List α) (cur : Int) (kept : List α),
    k < l.length → (1 ≤ k ∨ kept ≠ []) → (∀ m ∈ l, 0 ≤ c m) →
    cur + ((l.take k).map c).sum ≤ avail →
    avail < cur + ((l.take (k + 1)).map c).sum →
    trimToFitGo (fun m => some (c m)) avail l cur kept =
      some ((l.take k).reverse ++ kept) := by
  intro k
  induction k with
  | zero =>
    intro l cur kept hlen hor hnn hfit hover
    have hkept : kept ≠ [] := by
      cases hor with
      | inl h => omega
      | inr h => exact h
    cases l with
    | nil => simp at hlen
    | cons m rest =>
      simp only [List.take_succ_cons, List.take_zero, List.map_nil, List.sum_nil,
        List.map_cons, List.sum_cons, List.map_nil, List.sum_nil] at hfit hover
      simp only [trimToFitGo]
      have hgt : ¬(cur + c m ≤ avail) := by omega
      rw [if_neg hgt, if_neg (by simpa using hkept)]
      simp
  | succ k ih =>
    intro l cur kept hlen hor hnn hfit hover
    cases l with
    | nil => simp at hlen
    | cons m rest =>
      simp only [List.take_succ_cons, List.map_cons, List.sum_cons] at hfit hover
      have hnrest : ∀ x ∈ rest, 0 ≤ c x := fun x hx => hnn x (List.mem_cons_of_mem m hx)
      have hsum : 0 ≤ ((rest.take k).map c).sum := by
        apply List.sum_nonneg
        intro x hx
        obtain ⟨y, hy, rfl⟩ := List.mem_map.mp hx
        exact hnrest y (List.mem_of_mem_take hy)
      have hle : cur + c m ≤ avail := by omega
      simp only [trimToFitGo, if_pos hle]
      rw [ih rest (cur + c m) (m :: kept) (by simpa using hlen)
        (Or.inr (by simp)) hnrest (by omega) (by omega)]
      simp [List.take_succ_cons]

/-! ## Helper lemmas: token counting -/

theorem itemsTokens_bounds (g : String → Option Nat) (m : List (String × String)) :
    ∀ (a : Int), (m.map Prod.fst).Nodup → itemsTokens g m = some a →
    ("name" ∉ m.map Prod.fst → 0 ≤ a) ∧ -1 ≤ a := by
  induction m with
  | nil =>
    intro a _ h
    simp only [itemsTokens, Option.some.injEq] at h
    omega
  | cons kv rest ih =>
    intro a hnd h
    obtain ⟨k, v⟩ := kv
    simp only [itemsTokens] at h
    cases hg : g v with
    | none => simp only [hg] at h; exact Option.noConfusion h
    | some n =>
      cases hrest : itemsTokens g rest with
      | none => simp only [hg, hrest] at h; exact Option.noConfusion h
      | some b =>
        simp only [hg, hrest, Option.some.injEq] at h
        simp only [List.map_cons, List.nodup_cons] at hnd
        obtain ⟨hk, hndr⟩ := hnd
        obtain ⟨hb0, hbm⟩ := ih b hndr hrest
        by_cases hkn : k = "name"
        · subst hkn
          have h0 : 0 ≤ b := hb0 (fun hmem => hk hmem)
          simp only [if_pos rfl] at h
          constructor
          · intro hnm
            exact absurd (by simp) hnm
          · omega
        · simp only [if_neg hkn] at h
          constructor
          · intro hnm
            simp only [List.map_cons, List.mem_cons] at hnm
            push_neg at hnm
            have := hb0 hnm.2
            omega
          · omega

theorem exactTokens_nonneg (g : String → Option Nat) (messages : List Msg) :
    ∀ (n : Int), (∀ m ∈ messages, (m.map Prod.fst).Nodup) →
    exactTokens g messages = some n → 0 ≤ n := by
  induction messages with
  | nil =>
    intro n _ h
    simp only [exactTokens, Option.some.injEq] at h
    omega
  | cons m rest ih =>
    intro n hnd h
    simp only [exactTokens] at h
    cases hm : itemsTokens g m with
    | none => simp only [hm] at h; exact Option.noConfusion h
    | some a =>
      cases hrest : exactTokens g rest with
      | none => simp only [hm, hrest] at h; exact Option.noConfusion h
      | some b =>
        simp only [hm, hrest, Option.some.injEq] at h
        have ha := (itemsTokens_bounds g m a (hnd m (by simp)) hm).2
        have hb := ih b (fun x hx => hnd x (List.mem_cons_of_mem m hx)) hrest
        omega

theorem count_tokens_nonneg (tm : TokenManager) (messages : List Msg)
    (hnd : ∀ m ∈ messages, (m.map Prod.fst).Nodup) :
    0 ≤ tm.count_tokens messages := by
  unfold TokenManager.count_tokens
  cases henc : tm.encoding with
  | none => exact Int.natCast_nonneg _
  | some g =>
    cases hx : exactTokens g messages with
    | none => simp only [hx]; exact Int.natCast_nonneg _
    | some n =>
      simp only [hx]
      have := exactTokens_nonneg g messages n hnd hx
      omega

theorem itemsTokens_total (g : String → Option Nat) (f : String → Nat)
    (hg : ∀ s, g s = some (f s)) (m : List (String × String)) :
    itemsTokens g m =
      some ((m.map (fun kv => (f kv.2 : Int))).sum +
        (m.map (fun kv => if kv.1 = "name" then (-1 : Int) else 0)).sum) := by
  induction m with
  | nil => simp [itemsTokens]
  | cons kv rest ih =>
    obtain ⟨k, v⟩ := kv
    simp only [itemsTokens, hg v, ih, List.map_cons, List.sum_cons, Option.some.injEq]
    ring

theorem name_adjust_of_not_mem (m : List (String × String))
    (h : "name" ∉ m.map Prod.fst) :
    (m.map (fun kv => if kv.1 = "name" then (-1 : Int) else 0)).sum = 0 := by
  induction m with
  | nil => simp
  | cons kv rest ih =>
    simp only [List.map_cons, List.mem_cons] at h
    push_neg at h
    have hne : ¬(kv.1 = "name") := fun hh => h.1 hh.symm
    simp only [List.map_cons, List.sum_cons, if_neg hne, ih h.2]
    ring

theorem name_adjust_of_nodup (m : List (String × String))
    (hnd : (m.map Prod.fst).Nodup) :
    (m.map (fun kv => if kv.1 = "name" then (-1 : Int) else 0)).sum =
      if "name" ∈ m.map Prod.fst then -1 else 0 := by
  induction m with
  | nil => simp
  | cons kv rest ih =>
    simp only [List.map_cons, List.nodup_cons] at hnd
    obtain ⟨hk, hndr⟩ := hnd
    by_cases hkn : kv.1 = "name"
    · rw [List.map_cons, List.sum_cons, if_pos hkn,
        name_adjust_of_not_mem rest (hkn ▸ hk), if_pos (by simp [hkn])]
      ring
    · rw [List.map_cons, List.sum_cons, if_neg hkn, ih hndr]
      have hne : ¬("name" = kv.1) := fun hh => hkn hh.symm
      by_cases hm : "name" ∈ rest.map Prod.fst <;> simp [List.mem_cons, hne, hm]

theorem exactTokens_total (g : String → Option Nat) (f : String → Nat)
    (hg : ∀ s, g s = some (f s)) (messages : List Msg)
    (hnd : ∀ m ∈ messages, (m.map Prod.fst).Nodup) :
    exactTokens g messages =
      some ((messages.map (fun m =>
        4 + (m.map (fun kv => (f kv.2 : Int))).sum -
          (if "name" ∈ m.map Prod.fst then 1 else 0))).sum) := by
  induction messages with
  | nil => simp [exactTokens]
  | cons m rest ih =>
    simp only [exactTokens, itemsTokens_total g f hg m,
      ih (fun x hx => hnd x (List.mem_cons_of_mem m hx)),
      List.map_cons, List.sum_cons, Option.some.injEq]
    rw [name_adjust_of_nodup m (hnd m (by simp))]
    by_cases hm : "name" ∈ m.map Prod.fst
    · simp only [if_pos hm]; ring
    · simp only [if_neg hm]; ring

/-! ## Helper lemmas: message formatting -/

theorem startsWithBracket_tag (sn t : String) :
    startsWithBracket ("[" ++ sn ++ "]: " ++ t) = true := by
  have hdata : ("[" ++ sn ++ "]: " ++ t).data = '[' :: (sn.data ++ "]: ".data ++ t.data) := by
    simp [String.data_append]
  simp [startsWithBracket, hdata]

theorem applyGroupSender_idem (role t sn sn' : String) :
    applyGroupSender role (applyGroupSender role t sn) sn' = applyGroupSender role t sn := by
  unfold applyGroupSender
  by_cases hr : role ≠ "user"
  · simp [hr]
  · by_cases hb : startsWithBracket t
    · simp [hr, hb]
    · simp [hr, hb, startsWithBracket_tag]

theorem filterMap_self (f : β → Option β) (l : List β) (h : ∀ a ∈ l, f a = some a) :
    l.filterMap f = l := by
  induction l with
  | nil => simp
  | cons a rest ih =>
    rw [List.filterMap_cons, h a (by simp), ih (fun x hx => h x (List.mem_cons_of_mem a hx))]

theorem formatPart_idem (g : Bool) (role sn sn' : String) (p q : Part)
    (h : formatPart g role sn p = some q) : formatPart g role sn' q = some q := by
  unfold formatPart at h ⊢
  by_cases h1 : p.type = some "text" ∨ p.type = some "input_text"
  · rw [if_pos h1] at h
    simp only [Option.some.injEq] at h
    subst h
    rw [if_pos (Or.inr rfl)]
    cases g with
    | false => simp
    | true => simp [applyGroupSender_idem]
  · rw [if_neg h1] at h
    by_cases h2 : p.type = some "image_url" ∨ p.type = some "input_image"
    · rw [if_pos h2] at h
      by_cases h3 : p.type = some "image_url"
      · rw [if_pos h3] at h
        simp only [Option.some.injEq] at h
        subst h
        rw [if_neg (by simp), if_pos (Or.inr rfl), if_neg (by simp)]
        simp
      · rw [if_neg h3] at h
        simp only [Option.some.injEq] at h
        subst h
        rw [if_neg (by simp), if_pos (Or.inr rfl), if_neg (by simp)]
        simp
    · rw [if_neg h2] at h
      exact Option.noConfusion h

theorem formatMessage_idem (g : Bool) (m m' : FMsg)
    (h : formatMessage g m = some m') : formatMessage g m' = some m' := by
  unfold formatMessage at h ⊢
  cases hc : m.content with
  | str s =>
    rw [hc] at h
    simp only [Option.some.injEq] at h
    subst h
    cases g with
    | false => simp
    | true => simp [applyGroupSender_idem]
  | parts ps =>
    rw [hc] at h
    simp only [Option.some.injEq] at h
    subst h
    have hps : (ps.filterMap (formatPart g m.role (m.sender_name.getD "Unknown"))).filterMap
        (formatPart g m.role "Unknown") =
        ps.filterMap (formatPart g m.role (m.sender_name.getD "Unknown")) := by
      apply filterMap_self
      intro q hq
      obtain ⟨p, _, hp⟩ := List.mem_filterMap.mp hq
      exact formatPart_idem g m.role _ _ p q hp
    simp [hps]
  | other d =>
    rw [hc] at h
    exact Option.noConfusion h

/-! ## Helper lemmas: top-level trimmer structure -/

theorem reverse_take_lastN (l : List α) (n : Nat) :
    l.reverse.take n = (lastN n l).reverse := by
  rw [List.take_reverse]; rfl

theorem drop_props (l : List α) (j : Nat) (hj : j < l.length) :
    l.drop j ≠ [] ∧ l.drop j <:+ l ∧ (l.drop j).getLast? = l.getLast? := by
  have hne : l.drop j ≠ [] := by
    rw [Ne, List.drop_eq_nil_iff]; omega
  refine ⟨hne, List.drop_suffix j l, ?_⟩
  conv_rhs => rw [← List.take_append_drop j l]
  rw [List.getLast?_append_of_ne_nil _ hne]

theorem trim_to_fit_eq_drop (tm : TokenManager) (messages : List Msg) (reserve : Int)
    (hne : messages ≠ []) :
    ∃ j : Nat, j < messages.length ∧ tm.trim_to_fit messages reserve = messages.drop j := by
  have hlen : 0 < messages.length := List.length_pos.mpr hne
  unfold TokenManager.trim_to_fit
  rw [if_neg (by simpa using hne)]
  by_cases h1 : messages.length = 1
  · rw [if_pos h1]
    exact ⟨0, by omega, by simp⟩
  · rw [if_neg h1]
    cases hres : trimToFitGo (fun m => some (tm.count_tokens [m]))
        (tm.max_tokens - reserve) messages.reverse 0 [] with
    | none => exact ⟨messages.length - 20, by omega, rfl⟩
    | some kept =>
      obtain ⟨n, hn⟩ := trimToFitGo_shape _ _ _ _ _ _ hres
      have hknil : kept ≠ [] :=
        trimToFitGo_ne_nil _ _ _ _ _ _ (Or.inr (by simpa using hne)) hres
      rw [List.append_nil, List.take_reverse, List.reverse_reverse] at hn
      refine ⟨messages.length - n, ?_, hn⟩
      by_contra hge
      push_neg at hge
      exact hknil (hn.trans (List.drop_eq_nil_of_le hge))

theorem trim_messages_eq_drop (messages : List α) (max_tokens reserve : Int)
    (count : List α → Option Int) (hne : messages ≠ []) :
    ∃ j : Nat, j < messages.length ∧
      trim_messages_to_fit messages max_tokens count reserve = messages.drop j := by
  have hlen : 0 < messages.length := List.length_pos.mpr hne
  unfold trim_messages_to_fit
  rw [if_neg (by simpa using hne)]
  by_cases h1 : messages.length = 1
  · rw [if_pos h1]
    exact ⟨0, by omega, by simp⟩
  · rw [if_neg h1]
    rw [trimGo_congr (fun m => count [m]) (fun m => count [m]) (fun _ => rfl)]
    cases hres : trimToFitGo (fun m => count [m]) (max_tokens - reserve)
        messages.reverse 0 [] with
    | none => exact ⟨messages.length - 20, by omega, rfl⟩
    | some kept =>
      obtain ⟨n, hn⟩ := trimToFitGo_shape _ _ _ _ _ _ hres
      have hknil : kept ≠ [] :=
        trimToFitGo_ne_nil _ _ _ _ _ _ (Or.inr (by simpa using hne)) hres
      rw [List.append_nil, List.take_reverse, List.reverse_reverse] at hn
      refine ⟨messages.length - n, ?_, hn⟩
      by_contra hge
      push_neg at hge
      exact hknil (hn.trans (List.drop_eq_nil_of_le hge))

theorem trim_equiv_aux (tm : TokenManager) (messages : List Msg) (reserve : Int)
    (count : List Msg → Option Int)
    (hcount : ∀ ms, count ms = some (tm.count_tokens ms)) :
    trim_messages_to_fit messages tm.max_tokens count reserve =
      tm.trim_to_fit messages reserve := by
  unfold trim_messages_to_fit TokenManager.trim_to_fit
  rw [trimGo_congr (fun m => count [m]) (fun m => some (tm.count_tokens [m]))
    (fun m => hcount [m])]
  cases h : trimToFitGo (fun m => some (tm.count_tokens [m])) (tm.max_tokens - reserve)
      messages.reverse 0 [] <;>
    simp [h]

/-! ## Claims -/

/-- C1: for every non-empty chronological message list and any `max_tokens`
and `reserve` values, both `TokenManager.trim_to_fit` and
`trim_messages_to_fit` return a non-empty contiguous suffix of the input in
the original oldest-first order (never a subset with gaps), whose last element
equals the input's last element — including when the newest message alone
exceeds the budget, and including walks aborted by counter failures. -/
theorem trim_nonempty_contiguous_suffix (tm : TokenManager) (messages : List Msg)
    (max_tokens reserve : Int) (count : List Msg → Option Int)
    (hne : messages ≠ []) :
    (tm.trim_to_fit messages reserve ≠ [] ∧
      tm.trim_to_fit messages reserve <:+ messages ∧
      (tm.trim_to_fit messages reserve).getLast? = messages.getLast?) ∧
    (trim_messages_to_fit messages max_tokens count reserve ≠ [] ∧
      trim_messages_to_fit messages max_tokens count reserve <:+ messages ∧
      (trim_messages_to_fit messages max_tokens count reserve).getLast? =
        messages.getLast?) := by
  constructor
  · obtain ⟨j, hj, heq⟩ := trim_to_fit_eq_drop tm messages reserve hne
    rw [heq]
    exact drop_props messages j hj
  · obtain ⟨j, hj, heq⟩ := trim_messages_eq_drop messages max_tokens reserve count hne
    rw [heq]
    exact drop_props messages j hj

/-- A 2-message history whose newest message alone exceeds a zero budget. -/
def c1msgs : List Msg := [[("content", "ab")], [("content", "cdefgh")]]

/-- An estimate-mode manager with `max_tokens = 0`. -/
def c1tm : TokenManager := ⟨"gpt-4", 0, none⟩

/-- Witness for C1 at a concrete input where the newest message alone exceeds
the budget (cost 5 against budget 0). -/
theorem trim_nonempty_contiguous_suffix_witness :
    c1msgs ≠ [] ∧
    ((c1tm.trim_to_fit c1msgs 0 ≠ [] ∧ c1tm.trim_to_fit c1msgs 0 <:+ c1msgs ∧
      (c1tm.trim_to_fit c1msgs 0).getLast? = c1msgs.getLast?) ∧
     (trim_messages_to_fit c1msgs 0 (fun _ => some 7) 0 ≠ [] ∧
      trim_messages_to_fit c1msgs 0 (fun _ => some 7) 0 <:+ c1msgs ∧
      (trim_messages_to_fit c1msgs 0 (fun _ => some 7) 0).getLast? =
        c1msgs.getLast?)) :=
  ⟨by decide, trim_nonempty_contiguous_suffix c1tm c1msgs 0 0 (fun _ => some 7) (by decide)⟩

/-- C2: when the counter-reported costs of the last `k` messages sum within
the budget `max_tokens - reserve` while the last `k + 1` exceed it, trimming
returns exactly the last `k` messages; the same holds for
`trim_messages_to_fit` whenever the provider counter computes the manager's
`count_tokens`. -/
theorem trim_budget_boundary (tm : TokenManager) (messages : List Msg)
    (reserve : Int) (k : Nat) (count : List Msg → Option Int)
    (hnd : ∀ m ∈ messages, (m.map Prod.fst).Nodup)
    (hk1 : 1 ≤ k) (hk : k + 1 ≤ messages.length)
    (hfit : ((lastN k messages).map (fun m => tm.count_tokens [m])).sum ≤
      tm.max_tokens - reserve)
    (hover : tm.max_tokens - reserve <
      ((lastN (k + 1) messages).map (fun m => tm.count_tokens [m])).sum) :
    tm.trim_to_fit messages reserve = lastN k messages ∧
    ((∀ ms, count ms = some (tm.count_tokens ms)) →
      trim_messages_to_fit messages tm.max_tokens count reserve = lastN k messages) := by
  have hne : messages ≠ [] := by
    intro h
    rw [h] at hk
    simp at hk
  have hmain : tm.trim_to_fit messages reserve = lastN k messages := by
    unfold TokenManager.trim_to_fit
    rw [if_neg (by simpa using hne), if_neg (by omega)]
    have hsum1 : ((messages.reverse.take k).map (fun m => tm.count_tokens [m])).sum =
        ((lastN k messages).map (fun m => tm.count_tokens [m])).sum := by
      rw [reverse_take_lastN, List.map_reverse, List.sum_reverse]
    have hsum2 : ((messages.reverse.take (k + 1)).map (fun m => tm.count_tokens [m])).sum =
        ((lastN (k + 1) messages).map (fun m => tm.count_tokens [m])).sum := by
      rw [reverse_take_lastN, List.map_reverse, List.sum_reverse]
    have hgo := trimToFitGo_greedy (fun m => tm.count_tokens [m])
      (tm.max_tokens - reserve) k messages.reverse 0 []
      (by rw [List.length_reverse]; omega)
      (Or.inl hk1)
      (fun m hm => count_tokens_nonneg tm [m]
        (by intro x hx; rw [List.mem_singleton] at hx; rw [hx]
            exact hnd m (List.mem_reverse.mp hm)))
      (by rw [hsum1]; omega)
      (by rw [hsum2]; omega)
    rw [hgo]
    simp only [List.append_nil]
    rw [reverse_take_lastN, List.reverse_reverse]
  refine ⟨hmain, fun hcount => ?_⟩
  rw [trim_equiv_aux tm messages reserve count hcount]
  exact hmain

/-- An exact-mode manager whose encoder makes `[("c","a")]` cost 100 tokens
and `[("c","b")]` cost 50 tokens, with `max_tokens = 250`. -/
def c2tm : TokenManager :=
  ⟨"gpt-4", 250, some (fun s => some (if s = "a" then 94 else 44))⟩

/-- Five messages with per-message costs `[100, 100, 100, 100, 50]`
oldest-first under `c2tm`. -/
def c2msgs : List Msg :=
  [[("c", "a")], [("c", "a")], [("c", "a")], [("c", "a")], [("c", "b")]]

/-- Witness for C2: the spec scenario — costs `[100,100,100,100,50]` and
budget 250 yield exactly the last three messages. -/
theorem trim_budget_boundary_witness :
    (∀ m ∈ c2msgs, (m.map Prod.fst).Nodup) ∧ 1 ≤ 3 ∧ 3 + 1 ≤ c2msgs.length ∧
    ((lastN 3 c2msgs).map (fun m => c2tm.count_tokens [m])).sum ≤
      c2tm.max_tokens - 0 ∧
    c2tm.max_tokens - 0 <
      ((lastN 4 c2msgs).map (fun m => c2tm.count_tokens [m])).sum ∧
    (c2tm.trim_to_fit c2msgs 0 = lastN 3 c2msgs ∧
      ((∀ ms, some (c2tm.count_tokens ms) = some (c2tm.count_tokens ms)) →
        trim_messages_to_fit c2msgs c2tm.max_tokens
          (fun ms => some (c2tm.count_tokens ms)) 0 = lastN 3 c2msgs)) :=
  ⟨by decide, by decide, by decide, by decide, by decide,
    trim_budget_boundary c2tm c2msgs 0 3 (fun ms => some (c2tm.count_tokens ms))
      (by decide) (by decide) (by decide) (by decide) (by decide)⟩

/-- C10: `TokenManager.trim_to_fit(messages, reserve)` and
`trim_messages_to_fit(messages, max_tokens, provider, reserve)` return
identical results whenever the provider counter computes the same function as
the manager's `count_tokens` and `max_tokens` is the manager's `max_tokens`:
the two duplicate trimmer implementations are equivalent. -/
theorem trimmers_equivalent (tm : TokenManager) (messages : List Msg)
    (reserve : Int) (count : List Msg → Option Int)
    (hcount : ∀ ms, count ms = some (tm.count_tokens ms)) :
    trim_messages_to_fit messages tm.max_tokens count reserve =
      tm.trim_to_fit messages reserve :=
  trim_equiv_aux tm messages reserve count hcount

/-- An estimate-mode manager for the C10 witness. -/
def c10tm : TokenManager := ⟨"gpt-3.5-turbo", 40, none⟩

/-- A 3-message history for the C10 witness. -/
def c10msgs : List Msg :=
  [[("role", "user"), ("content", "one")],
   [("role", "assistant"), ("content", "two")],
   [("role", "user"), ("content", "three")]]

/-- Witness for C10 at a concrete manager, counter and history. -/
theorem trimmers_equivalent_witness :
    (∀ ms : List Msg, some (c10tm.count_tokens ms) = some (c10tm.count_tokens ms)) ∧
    trim_messages_to_fit c10msgs c10tm.max_tokens
      (fun ms => some (c10tm.count_tokens ms)) 10 = c10tm.trim_to_fit c10msgs 10 :=
  ⟨fun _ => rfl,
    trimmers_equivalent c10tm c10msgs 10 (fun ms => some (c10tm.count_tokens ms))
      (fun _ => rfl)⟩

/-- The history for the C3 counterexample: oldest, middle, newest. -/
def c3msgs : List Msg := [[("c", "old")], [("c", "mid")], [("c", "new")]]

/-- A counter that raises exactly on the middle message of `c3msgs`. -/
def c3count : List Msg → Option Int :=
  fun ms => if ms = [[("c", "mid")]] then none else some 5

/-- C3 counterexample: with a per-message cost failure on the middle message
during the walk, `trim_messages_to_fit` does not skip that message and
continue with older ones — it aborts and returns the last-20 fallback (here:
the whole input, offending message included), not the input minus the
offending message. -/
theorem trim_count_failure_not_skipped :
    trim_messages_to_fit c3msgs 1000 c3count 0 = c3msgs ∧
    [("c", "mid")] ∈ trim_messages_to_fit c3msgs 1000 c3count 0 ∧
    trim_messages_to_fit c3msgs 1000 c3count 0 ≠ [[("c", "old")], [("c", "new")]] := by
  refine ⟨by decide, by decide, by decide⟩

/-- C3 amended: a per-message cost-count failure during the walk aborts the
whole trimming operation, which falls back to returning the last 20 messages
of the input (older messages are not evaluated and the offending message is
not skipped).  Stated for a failure on the newest message, the first one the
walk evaluates. -/
theorem trim_count_failure_falls_back (messages : List α) (max_tokens reserve : Int)
    (count : List α → Option Int) (m : α)
    (h2 : 2 ≤ messages.length) (hlast : messages.getLast? = some m)
    (hfail : count [m] = none) :
    trim_messages_to_fit messages max_tokens count reserve =
      messages.drop (messages.length - 20) := by
  have hne : messages ≠ [] := by
    intro h
    rw [h] at h2
    simp at h2
  unfold trim_messages_to_fit
  rw [if_neg (by simpa using hne), if_neg (by omega)]
  cases hrev : messages.reverse with
  | nil =>
    exfalso
    exact hne (by simpa using congrArg List.reverse hrev)
  | cons a rest =>
    have ha : a = m := by
      have hh := List.head?_reverse messages
      rw [hrev, hlast] at hh
      simpa using hh
    rw [ha]
    simp [trimMessagesGo, hfail]

/-- A 2-message history for the C3 witness. -/
def c3bmsgs : List Msg := [[("x", "1")], [("x", "2")]]

/-- Witness for the amended C3 at a concrete input: an always-failing counter
makes the trimmer return the fallback suffix. -/
theorem trim_count_failure_falls_back_witness :
    2 ≤ c3bmsgs.length ∧ c3bmsgs.getLast? = some [("x", "2")] ∧
    ((fun _ : List Msg => (none : Option Int)) [[("x", "2")]] = none) ∧
    trim_messages_to_fit c3bmsgs 100 (fun _ => none) 0 =
      c3bmsgs.drop (c3bmsgs.length - 20) :=
  ⟨by decide, by decide, rfl,
    trim_count_failure_falls_back c3bmsgs 100 0 (fun _ => none) [("x", "2")]
      (by decide) (by decide) rfl⟩

/-- C7: `count_tokens` is total (never raises — the embedding is a total
function) and non-negative on dict-shaped input; whenever no tokenizer is
available the result is exactly `floor(total_character_count / 4) +
4 × message_count`. -/
theorem count_tokens_safe (tm : TokenManager) (messages : List Msg)
    (hnd : ∀ m ∈ messages, (m.map Prod.fst).Nodup) :
    0 ≤ tm.count_tokens messages ∧
    (tm.encoding = none →
      tm.count_tokens messages =
        ((totalChars messages / 4 + 4 * messages.length : Nat) : Int)) := by
  refine ⟨count_tokens_nonneg tm messages hnd, fun he => ?_⟩
  simp only [TokenManager.count_tokens, he, TokenManager.estimate_tokens]
  push_cast
  ring

/-- An estimate-mode manager for the C7 witness. -/
def c7tm : TokenManager := ⟨"unknown-model", 100, none⟩

/-- A malformed message list for the C7 witness: no `role` key, empty dict. -/
def c7msgs : List Msg := [[("data", "12")], []]

/-- Witness for C7: on malformed input in estimate mode the count is
non-negative and follows the character formula. -/
theorem count_tokens_safe_witness :
    (∀ m ∈ c7msgs, (m.map Prod.fst).Nodup) ∧
    0 ≤ c7tm.count_tokens c7msgs ∧
    (c7tm.encoding = none →
      c7tm.count_tokens c7msgs =
        ((totalChars c7msgs / 4 + 4 * c7msgs.length : Nat) : Int)) :=
  ⟨by decide, count_tokens_safe c7tm c7msgs (by decide)⟩

/-- C6: in exact mode, `count_tokens` is the sum over messages of (4 + the
encoded length of every attribute's value, minus 1 when a `name` attribute is
present) plus a single 2-unit priming cost for the whole batch; and
`count_message_tokens role content` is `count_tokens` of the corresponding
singleton minus 2. -/
theorem count_tokens_exact_formula (tm : TokenManager) (g : String → Option Nat)
    (f : String → Nat) (henc : tm.encoding = some g)
    (hg : ∀ s, g s = some (f s)) (messages : List Msg)
    (hnd : ∀ m ∈ messages, (m.map Prod.fst).Nodup) :
    tm.count_tokens messages =
      (messages.map (fun m =>
        4 + (m.map (fun kv => (f kv.2 : Int))).sum -
          (if "name" ∈ m.map Prod.fst then 1 else 0))).sum + 2 ∧
    (∀ role content, tm.count_message_tokens role content =
      tm.count_tokens [[("role", role), ("content", content)]] - 2) := by
  refine ⟨?_, fun role content => rfl⟩
  simp only [TokenManager.count_tokens, henc, exactTokens_total g f hg messages hnd]

/-- An exact-mode manager whose encoder costs one token per character. -/
def c6tm : TokenManager := ⟨"gpt-4", 100, some (fun s => some s.length)⟩

/-- A two-message batch with a `name` attribute on the first message. -/
def c6msgs : List Msg :=
  [[("role", "user"), ("name", "bob"), ("content", "hi")],
   [("role", "assistant"), ("content", "yo")]]

/-- Witness for C6 with a concrete per-character encoder and a named message. -/
theorem count_tokens_exact_formula_witness :
    c6tm.encoding = some (fun s => some s.length) ∧
    (∀ m ∈ c6msgs, (m.map Prod.fst).Nodup) ∧
    (c6tm.count_tokens c6msgs =
      (c6msgs.map (fun m =>
        4 + (m.map (fun kv => (String.length kv.2 : Int))).sum -
          (if "name" ∈ m.map Prod.fst then 1 else 0))).sum + 2 ∧
     (∀ role content, c6tm.count_message_tokens role content =
       c6tm.count_tokens [[("role", role), ("content", content)]] - 2)) :=
  ⟨rfl, by decide,
    count_tokens_exact_formula c6tm (fun s => some s.length) String.length rfl
      (fun _ => rfl) c6msgs (by decide)⟩

/-- A builder with a live persona lookup for the C4 counterexample. -/
def c4pb : PromptBuilder :=
  ⟨"PRIV", "GRP", some (Except.ok "villain"),
    some (fun n => if n = "villain" then Except.ok (some "VILLAIN-TEXT")
      else Except.ok none),
    "Asia/Singapore", "UTC"⟩

/-- A clock environment that always yields a fixed timestamp. -/
def c4env : String → Option String := fun _ => some "2026-10-12T00:00:00+08:00"

/-- C4 counterexample: an explicit per-call override that is the empty string
is falsy in Python (`if custom_system_prompt:`), so it does NOT override — the
stored persona text is used instead of the provided override, refuting "for
every provided explicit per-call override string X, the body is X". -/
theorem empty_override_not_used :
    c4pb.build_system_prompt c4env true (some "") =
      some "Current date/time: 2026-10-12T00:00:00+08:00\n\n\"VILLAIN-TEXT\"" ∧
    c4pb.build_system_prompt c4env true (some "") ≠
      some "Current date/time: 2026-10-12T00:00:00+08:00\n\n\"\"" := by
  refine ⟨by decide, by decide⟩

/-- C4 amended: a NON-EMPTY explicit override X always wins, over both the
stored persona and the defaults; with no override in a group chat the active
persona's non-empty text is used, unless the active persona is the sentinel
"normal", the active-persona call raises, the lookup raises, the persona is
absent, or its text is empty — in each of those cases the built-in default
group text is used and no error is surfaced (the resolution is total). -/
theorem prompt_body_resolution (pb : PromptBuilder) (X : String) (hX : X ≠ "") :
    (∀ is_group, pb.prompt_body is_group (some X) = X) ∧
    (∀ lookup active, pb.get_active_personality = some (Except.ok active) →
      pb.get_personality_prompt = some lookup → active ≠ "normal" →
      lookup active = Except.ok (some X) → pb.prompt_body true none = X) ∧
    (pb.get_active_personality = some (Except.ok "normal") →
      pb.prompt_body true none = pb.default_group_prompt) ∧
    (pb.get_active_personality = some (Except.error ()) →
      pb.prompt_body true none = pb.default_group_prompt) ∧
    (∀ lookup active, pb.get_active_personality = some (Except.ok active) →
      pb.get_personality_prompt = some lookup →
      (lookup active = Except.error () ∨ lookup active = Except.ok none ∨
        lookup active = Except.ok (some "")) →
      pb.prompt_body true none = pb.default_group_prompt) := by
  have hXe : X.isEmpty = false := by
    rw [← Bool.not_eq_true, String.isEmpty_iff]
    exact hX
  have htruthy : optStrTruthy (some X) = true := by
    simp [optStrTruthy, hXe]
  refine ⟨?_, ?_, ?_, ?_, ?_⟩
  · intro is_group
    simp [PromptBuilder.prompt_body, htruthy]
  · intro lookup active hact hlook hnorm hfound
    unfold PromptBuilder.prompt_body PromptBuilder.resolve_group_personality
    rw [hact, hlook]
    simp [hnorm, hfound, optStrTruthy, hXe]
  · intro hact
    unfold PromptBuilder.prompt_body PromptBuilder.resolve_group_personality
    rw [hact]
    cases hlook : pb.get_personality_prompt with
    | none => simp [optStrTruthy]
    | some lookup => simp [optStrTruthy]
  · intro hact
    unfold PromptBuilder.prompt_body PromptBuilder.resolve_group_personality
    rw [hact]
    cases hlook : pb.get_personality_prompt with
    | none => simp [optStrTruthy]
    | some lookup => simp [optStrTruthy]
  · intro lookup active hact hlook hmiss
    unfold PromptBuilder.prompt_body PromptBuilder.resolve_group_personality
    rw [hact, hlook]
    by_cases hnorm : active = "normal"
    · simp [hnorm, optStrTruthy]
    · have hemp : ("" : String).isEmpty = true := by decide
      rcases hmiss with h | h | h <;> simp [hnorm, h, optStrTruthy, hemp]

/-- A builder for the C4 witness: active persona "villain" present. -/
def c4wpb : PromptBuilder :=
  ⟨"P", "G", some (Except.ok "villain"),
    some (fun n => if n = "villain" then Except.ok (some "V") else Except.ok none),
    "Asia/Singapore", "UTC"⟩

/-- Witness for the amended C4 at a concrete builder and override. -/
theorem prompt_body_resolution_witness :
    ("X" : String) ≠ "" ∧
    ((∀ is_group, c4wpb.prompt_body is_group (some "X") = "X") ∧
     (∀ lookup active, c4wpb.get_active_personality = some (Except.ok active) →
       c4wpb.get_personality_prompt = some lookup → active ≠ "normal" →
       lookup active = Except.ok (some "X") → c4wpb.prompt_body true none = "X") ∧
     (c4wpb.get_active_personality = some (Except.ok "normal") →
       c4wpb.prompt_body true none = c4wpb.default_group_prompt) ∧
     (c4wpb.get_active_personality = some (Except.error ()) →
       c4wpb.prompt_body true none = c4wpb.default_group_prompt) ∧
     (∀ lookup active, c4wpb.get_active_personality = some (Except.ok active) →
       c4wpb.get_personality_prompt = some lookup →
       (lookup active = Except.error () ∨ lookup active = Except.ok none ∨
         lookup active = Except.ok (some "")) →
       c4wpb.prompt_body true none = c4wpb.default_group_prompt)) :=
  ⟨by decide, prompt_body_resolution c4wpb "X" (by decide)⟩

/-- C9: every prompt `build_system_prompt` returns has exactly the shape
`Current date/time: <iso>\n\n"<persona body>"` with a single persona body,
where `<iso>` is what the clock yields for the configured timezone, falling
back to the configured fallback timezone (UTC by construction) when the
configured one is unavailable. -/
theorem build_system_prompt_shape (pb : PromptBuilder) (env : String → Option String)
    (is_group : Bool) (custom : Option String) (iso : String)
    (h : pb.current_time_iso env = some iso) :
    pb.build_system_prompt env is_group custom =
      some ("Current date/time: " ++ iso ++ "\n\n\"" ++
        pb.prompt_body is_group custom ++ "\"") ∧
    (env pb.timezone_name = some iso ∨
      (env pb.timezone_name = none ∧ env pb.fallback_timezone_name = some iso)) := by
  constructor
  · unfold PromptBuilder.build_system_prompt
    rw [h]
    rfl
  · unfold PromptBuilder.current_time_iso at h
    cases he : env pb.timezone_name with
    | some t =>
      simp only [he, Option.some.injEq] at h
      subst h
      exact Or.inl rfl
    | none =>
      simp only [he] at h
      right
      exact ⟨rfl, h⟩

/-- A builder with no persona resolvers for the C9 witness. -/
def c9pb : PromptBuilder := ⟨"PRIV", "GRP", none, none, "Asia/Singapore", "UTC"⟩

/-- A clock that only knows the configured timezone. -/
def c9env : String → Option String :=
  fun tz => if tz = "Asia/Singapore" then some "2026-10-12T12:00:00+08:00" else none

/-- Witness for C9 at a concrete builder, clock and group chat. -/
theorem build_system_prompt_shape_witness :
    c9pb.current_time_iso c9env = some "2026-10-12T12:00:00+08:00" ∧
    (c9pb.build_system_prompt c9env true none =
      some ("Current date/time: " ++ "2026-10-12T12:00:00+08:00" ++ "\n\n\"" ++
        c9pb.prompt_body true none ++ "\"") ∧
     (c9env c9pb.timezone_name = some "2026-10-12T12:00:00+08:00" ∨
       (c9env c9pb.timezone_name = none ∧
        c9env c9pb.fallback_timezone_name = some "2026-10-12T12:00:00+08:00"))) :=
  ⟨by decide, build_system_prompt_shape c9pb c9env true none _ (by decide)⟩

theorem format_reply_context_ne_empty (s c : String) :
    format_reply_context s c ≠ "" := by
  intro h
  have hlen := congrArg String.length h
  unfold format_reply_context at hlen
  simp only [String.length_append] at hlen
  have h1 : "[Context - Replying to ".length = 23 := rfl
  have h2 : "]: \"".length = 4 := rfl
  have h3 : "\"".length = 1 := rfl
  have h4 : ("" : String).length = 0 := rfl
  rw [h1, h2, h3, h4] at hlen
  omega

/-- C5 counterexample: the reply note is PREPENDED before the prompt it is
combined with, not appended after it — composing a persona body with a note
puts the note first, refuting "this note is appended after the persona body
of the system prompt". -/
theorem reply_note_not_appended :
    combine_with_reply_context "PERSONA BODY" (format_reply_context "Alice" "hi") =
      "[Context - Replying to Alice]: \"hi\"\n\nPERSONA BODY" ∧
    combine_with_reply_context "PERSONA BODY" (format_reply_context "Alice" "hi") ≠
      "PERSONA BODY\n\n[Context - Replying to Alice]: \"hi\"" := by
  refine ⟨by decide, by decide⟩

/-- C5 amended: `format_reply_context` produces a note naming the original
sender and quoting their content, and `combine_with_reply_context` PREPENDS
that note before the user prompt (note, blank line, prompt, whitespace
stripped at the ends) rather than appending it after the persona body of the
system prompt; `build_system_prompt` itself takes no reply context. -/
theorem reply_note_shape (sender_name content prompt : String) :
    format_reply_context sender_name content =
      "[Context - Replying to " ++ sender_name ++ "]: \"" ++ content ++ "\"" ∧
    combine_with_reply_context prompt (format_reply_context sender_name content) =
      pyStrip (format_reply_context sender_name content ++ "\n\n" ++ prompt) := by
  refine ⟨rfl, ?_⟩
  unfold combine_with_reply_context
  rw [if_neg (format_reply_context_ne_empty sender_name content)]

/-- C8: group sender-prefixing is idempotent — a user-role text already
starting with `[` is left unchanged by `_apply_group_sender_prefix`, and
applying `format_messages` a second time to its own output changes nothing
(so no double prefix is ever produced). -/
theorem format_messages_idempotent :
    (∀ role t sender_name : String, startsWithBracket t = true →
      applyGroupSender role t sender_name = t) ∧
    (∀ (messages : List FMsg) (is_group : Bool),
      format_messages (format_messages messages is_group) is_group =
        format_messages messages is_group) := by
  constructor
  · intro role t sn hb
    unfold applyGroupSender
    by_cases hr : role ≠ "user" <;> simp [hr, hb]
  · intro msgs g
    unfold format_messages
    apply filterMap_self
    intro m' hm'
    obtain ⟨m, _, hm⟩ := List.mem_filterMap.mp hm'
    exact formatMessage_idem g m m' hm

/-- A group history for the C8 witness: an already-prefixed text message and
a multimodal message. -/
def c8msgs : List FMsg :=
  [⟨"user", Content.str "[Alice]: hi", some "Alice"⟩,
   ⟨"user", Content.parts
     [⟨some "text", some "look", none⟩,
      ⟨some "image_url", none, some (ImageVal.dict (some "http://x/y.png"))⟩],
     some "Bob"⟩]

/-- Witness for C8 at a concrete bracket-prefixed text and a concrete group
history. -/
theorem format_messages_idempotent_witness :
    startsWithBracket "[Alice]: hi" = true ∧
    applyGroupSender "user" "[Alice]: hi" "Bob" = "[Alice]: hi" ∧
    format_messages (format_messages c8msgs true) true = format_messages c8msgs true :=
  ⟨by decide,
    format_messages_idempotent.1 "user" "[Alice]: hi" "Bob" (by decide),
    format_messages_idempotent.2 c8msgs true⟩

end TelegramGpt
